import Mathlib

/-!
Shallow embedding of the `fsdb` FileSyncManager (src/FileSyncManager.ts).

The store is the SQLite `files` table, modelled as a list of rows; the SQL
statements executed by the manager are modelled row-wise:
  - `INSERT` fails when the UNIQUE constraint on `file_path` is violated,
  - `UPDATE ... WHERE file_path = ?` rewrites every matching row and
    succeeds even when no row matches,
  - `DELETE FROM files WHERE file_path = ?` removes every matching row and
    succeeds even when no row matches.
The filesystem seen by the per-file syscalls (`fs.stat`, `fs.readFile`) is a
lookup table from paths to metadata; a missing entry models a failing `stat`,
and a `none` checksum models a failing content read. The directory tree
walked by `#scanDirectory` is a separate inductive tree, with unreadable
directories marked explicitly.
-/

namespace Fsdb

/-- A row of the `files` table (`FileRecord` in the source). -/
structure FileRecord where
  id : Option Nat
  file_path : String
  size : Nat
  modified_time : Int
  checksum : String
  created_at : String
  updated_at : String
deriving Repr, DecidableEq

/-- Result of `fs.stat` plus content readability for one path:
`size` is `stats.size`, `mtimeMs` is `stats.mtime.getTime()`, and
`checksum?` is the SHA-256 hex digest of the contents when the file is
readable (`none` models a failing `fs.readFile`). -/
structure FileMeta where
  size : Nat
  mtimeMs : Int
  checksum? : Option String
deriving Repr, DecidableEq

/-- The filesystem as seen by the per-file syscalls. -/
abbrev Disk := List (String × FileMeta)

/-- The `files` table. -/
abbrev Store := List FileRecord

/-- `fs.stat filePath`: `none` models a thrown error (e.g. ENOENT). -/
def statFile (disk : Disk) (p : String) : Option FileMeta :=
  (disk.find? (fun e => e.1 == p)).map (fun e => e.2)

/-- `#calculateChecksum`: read the file and hash it; `none` models a
thrown read error. -/
def calculateChecksum (disk : Disk) (p : String) : Option String :=
  (statFile disk p).bind (fun m => m.checksum?)

/-- `#createFileRecord`: stat the file, hash its contents and build a fresh
record; `none` models a propagated error from either step.
`modified_time` is `Math.floor(stats.mtime.getTime() / 1000)`. -/
def createFileRecord (disk : Disk) (now : String) (p : String) :
    Option FileRecord :=
  match statFile disk p with
  | none => none
  | some m =>
    match calculateChecksum disk p with
    | none => none
    | some c =>
      some { id := none, file_path := p, size := m.size,
             modified_time := m.mtimeMs.fdiv 1000, checksum := c,
             created_at := now, updated_at := now }

/-- Fresh AUTOINCREMENT id for an insert. -/
def freshId (s : Store) : Nat :=
  s.foldl (fun acc r => max acc (r.id.getD 0)) 0 + 1

/-- The `INSERT INTO files ...` statement run by `#insertFileRecord`:
fails on the UNIQUE constraint over `file_path`, otherwise appends the row
with a fresh id. -/
def sqlInsert (s : Store) (rec : FileRecord) : Except String Store :=
  if s.any (fun r => r.file_path == rec.file_path) then
    Except.error "UNIQUE constraint failed: files.file_path"
  else
    Except.ok (s ++ [{ rec with id := some (freshId s) }])

/-- Row-wise effect of the `UPDATE files SET size = ?, modified_time = ?,
checksum = ?, updated_at = ? WHERE file_path = ?` statement on one row. -/
def updateRow (rec r : FileRecord) : FileRecord :=
  if r.file_path == rec.file_path then
    { r with size := rec.size, modified_time := rec.modified_time,
             checksum := rec.checksum, updated_at := rec.updated_at }
  else r

/-- The `UPDATE` statement run by `#updateFileRecord`: rewrites every row
whose `file_path` matches; matching zero rows is not an error. -/
def sqlUpdate (s : Store) (rec : FileRecord) : Store :=
  s.map (updateRow rec)

/-- The `DELETE FROM files WHERE file_path = ?` statement run by
`#removeFileRecord`: matching zero rows is not an error. -/
def sqlDelete (s : Store) (p : String) : Store :=
  s.filter (fun r => r.file_path != p)

/-- `#insertFileRecord`: throws when the database handle is `null`,
otherwise runs the `INSERT` (whose constraint violation it rethrows). -/
def insertFileRecord (db : Option Store) (rec : FileRecord) :
    Except String Store :=
  match db with
  | none => Except.error "Database not initialized"
  | some s => sqlInsert s rec

/-- `#updateFileRecord`: throws when the database handle is `null`,
otherwise runs the `UPDATE`, which always succeeds. -/
def updateFileRecord (db : Option Store) (rec : FileRecord) :
    Except String Store :=
  match db with
  | none => Except.error "Database not initialized"
  | some s => Except.ok (sqlUpdate s rec)

/-- `#removeFileRecord`: throws when the database handle is `null`,
otherwise runs the `DELETE`, which always succeeds. -/
def removeFileRecord (db : Option Store) (p : String) :
    Except String Store :=
  match db with
  | none => Except.error "Database not initialized"
  | some s => Except.ok (sqlDelete s p)

/-- `#hasFileChanged`, instrumented: the first component is the returned
boolean, the second records whether the checksum computation was reached.
Any thrown error (failed stat or failed read) is caught and converted into
`true` ("assume changed if we can't check"). -/
def hasFileChangedI (disk : Disk) (p : String) (rec : FileRecord) :
    Bool × Bool :=
  match statFile disk p with
  | none => (true, false)
  | some m =>
    if m.size != rec.size || m.mtimeMs.fdiv 1000 != rec.modified_time then
      (true, false)
    else
      match calculateChecksum disk p with
      | none => (true, true)
      | some c => (c != rec.checksum, true)

/-- `#hasFileChanged` as the caller sees it. -/
def hasFileChanged (disk : Disk) (p : String) (rec : FileRecord) : Bool :=
  (hasFileChangedI disk p rec).1

/-- One directory entry as returned by `fs.readdir(..., withFileTypes)`.
`unreadableDir` marks a subdirectory whose own `readdir` throws. -/
inductive FsEntry where
  | file (name : String)
  | dir (name : String) (entries : List FsEntry)
  | unreadableDir (name : String)
deriving Repr

/-- `#scanDirectory`: recursively collect the full paths of all regular
files, in entry order; an error in any subdirectory is rethrown, aborting
the whole scan. `path.join` is modelled as `dirPath ++ "/" ++ name`. -/
def scanEntries (dirPath : String) : List FsEntry → Except String (List String)
  | [] => Except.ok []
  | FsEntry.file name :: rest =>
    match scanEntries dirPath rest with
    | Except.error e => Except.error e
    | Except.ok tail => Except.ok ((dirPath ++ "/" ++ name) :: tail)
  | FsEntry.dir name sub :: rest =>
    match scanEntries (dirPath ++ "/" ++ name) sub with
    | Except.error e => Except.error e
    | Except.ok head =>
      match scanEntries dirPath rest with
      | Except.error e => Except.error e
      | Except.ok tail => Except.ok (head ++ tail)
  | FsEntry.unreadableDir name :: _ =>
    Except.error ("Failed to scan directory " ++ dirPath ++ "/" ++ name)

/-- Whether a tree contains an unreadable directory anywhere. -/
def hasUnreadable : List FsEntry → Bool
  | [] => false
  | FsEntry.file _ :: rest => hasUnreadable rest
  | FsEntry.dir _ sub :: rest => hasUnreadable sub || hasUnreadable rest
  | FsEntry.unreadableDir _ :: _ => true

/-- Operation counts of one reconciliation pass. -/
structure Ops where
  inserts : Nat
  updates : Nat
  deletes : Nat
deriving Repr, DecidableEq

def zeroOps : Ops := { inserts := 0, updates := 0, deletes := 0 }

/-- The body of `performInitialSync`'s per-file loop: look the path up in
the record map loaded at the start of the pass; insert a fresh record when
absent, otherwise update only when `#hasFileChanged` reports a change.
Errors from `#createFileRecord` or the insert propagate. -/
def processFile (disk : Disk) (now : String) (dbRecords : Store)
    (st : Store × Ops) (p : String) : Except String (Store × Ops) :=
  match dbRecords.find? (fun r => r.file_path == p) with
  | none =>
    match createFileRecord disk now p with
    | none => Except.error ("Failed to create file record for " ++ p)
    | some rec =>
      match sqlInsert st.1 rec with
      | Except.error e => Except.error e
      | Except.ok s2 =>
        Except.ok (s2, { st.2 with inserts := st.2.inserts + 1 })
  | some dbRecord =>
    if hasFileChanged disk p dbRecord then
      match createFileRecord disk now p with
      | none => Except.error ("Failed to create file record for " ++ p)
      | some rec =>
        Except.ok (sqlUpdate st.1 { rec with id := dbRecord.id },
                   { st.2 with updates := st.2.updates + 1 })
    else Except.ok st

/-- `performInitialSync`'s loop over the scanned files. The store state is
threaded through explicitly: on the first thrown error the loop stops and
the mutations already applied persist (SQLite is not rolled back). -/
def processFiles (disk : Disk) (now : String) (dbRecords : Store) :
    List String → Store × Ops → (Store × Ops) × Option String
  | [], st => (st, none)
  | p :: rest, st =>
    match processFile disk now dbRecords st p with
    | Except.error e => (st, some e)
    | Except.ok st2 => processFiles disk now dbRecords rest st2

/-- `performInitialSync`'s final loop: delete the record of every path that
was loaded at the start of the pass but not seen in the scan. -/
def deleteStale (scanned : List String) (dbRecords : Store)
    (st : Store × Ops) : Store × Ops :=
  dbRecords.foldl
    (fun acc r =>
      if scanned.contains r.file_path then acc
      else (sqlDelete acc.1 r.file_path,
            { acc.2 with deletes := acc.2.deletes + 1 }))
    st

/-- `performInitialSync`: scan, load all records (`#getAllFileRecords`,
which throws when the database handle is `null`), insert/update each
scanned file, then delete stale records. The result pairs the final
database state and operation counts with the propagated error, if any;
the delete loop runs only when scanning and the per-file loop succeeded. -/
def performInitialSync (root : String) (tree : List FsEntry) (disk : Disk)
    (db : Option Store) (now : String) :
    (Option Store × Ops) × Option String :=
  match scanEntries root tree with
  | Except.error e => ((db, zeroOps), some e)
  | Except.ok currentFiles =>
    match db with
    | none => ((none, zeroOps), some "Database not initialized")
    | some dbRecords =>
      match processFiles disk now dbRecords currentFiles
          (dbRecords, zeroOps) with
      | (st, some e) => ((some st.1, st.2), some e)
      | (st, none) =>
        let st2 := deleteStale currentFiles dbRecords st
        ((some st2.1, st2.2), none)

/-- `#handleFileAddOrChange`: build a fresh record, try the update, fall
back to insert when the update throws; the outer catch converts any error
into a log report (second component) and leaves the database untouched.
The debounce delay does not affect the state transition and is not
modelled. -/
def handleFileAddOrChange (db : Option Store) (disk : Disk) (now : String)
    (p : String) : Option Store × Option String :=
  match createFileRecord disk now p with
  | none => (db, some ("Failed to handle file add/change for " ++ p))
  | some rec =>
    match db with
    | none => (db, some ("Failed to handle file add/change for " ++ p))
    | some s =>
      match updateFileRecord (some s) rec with
      | Except.ok s2 => (some s2, none)
      | Except.error _ =>
        match insertFileRecord (some s) rec with
        | Except.ok s2 => (some s2, none)
        | Except.error _ =>
          (some s, some ("Failed to handle file add/change for " ++ p))

/-- The `unlink` callback registered by `startWatching`: it invokes
`#removeFileRecord` directly, with no surrounding catch, so any thrown
error escapes the handler (as an unhandled promise rejection). -/
def handleUnlinkEvent (db : Option Store) (p : String) :
    Except String Store :=
  removeFileRecord db p

/-- The chokidar options relevant to event filtering: an optional
user-supplied ignore predicate (modelling the `ignored` option). -/
structure ChokidarOptions where
  ignored : Option (String → Bool)

/-- The default `ignored` regular expression passed by `startWatching` to
chokidar, written in the source as the dotfile pattern
`(^|[\/\\])\..` — a dot that starts the string or follows a slash or
backslash and is followed by at least one character. The boolean argument
records whether the current position is at such a boundary. -/
def dotfileMatchAux : Bool → List Char → Bool
  | _, [] => false
  | atBoundary, c :: rest =>
    (atBoundary && (match c :: rest with
      | '.' :: _ :: _ => true
      | _ => false)) ||
    dotfileMatchAux (c == '/' || c == '\\') rest

/-- Whether the default ignore pattern matches a path. -/
def defaultIgnored (p : String) : Bool :=
  dotfileMatchAux true p.data

/-- The options `startWatching` passes to `chokidar.watch`: the default
`ignored` pattern is overridden by the user options when they supply one
(object spread `{...defaultOptions, ...watchOptions}`). -/
def startWatchingOptions (userOptions : ChokidarOptions) : ChokidarOptions :=
  { ignored :=
      match userOptions.ignored with
      | some f => some f
      | none => some defaultIgnored }

/-- Modelled from the spec: the watch service (chokidar, external to this
repository) emits add/change/remove events only for paths not matched by
the configured ignore rules, so an event on path `p` reaches the handlers
exactly when the effective `ignored` predicate rejects it. -/
def eventDelivered (userOptions : ChokidarOptions) (p : String) : Bool :=
  match (startWatchingOptions userOptions).ignored with
  | some f => !(f p)
  | none => true

/-! ### Basic facts about the per-file primitives -/

theorem createFileRecord_eq_some {disk : Disk} {now p : String}
    {rec : FileRecord} (h : createFileRecord disk now p = some rec) :
    ∃ m c, statFile disk p = some m ∧ calculateChecksum disk p = some c ∧
      rec = { id := none, file_path := p, size := m.size,
              modified_time := m.mtimeMs.fdiv 1000, checksum := c,
              created_at := now, updated_at := now } := by
  unfold createFileRecord at h
  cases hstat : statFile disk p with
  | none => rw [hstat] at h; cases h
  | some m =>
    rw [hstat] at h
    cases hcs : calculateChecksum disk p with
    | none => rw [hcs] at h; cases h
    | some c =>
      rw [hcs] at h
      exact ⟨m, c, rfl, rfl, (Option.some_injective _ h).symm⟩

theorem createFileRecord_path {disk : Disk} {now p : String}
    {rec : FileRecord} (h : createFileRecord disk now p = some rec) :
    rec.file_path = p := by
  obtain ⟨m, c, _, _, hrec⟩ := createFileRecord_eq_some h
  rw [hrec]

/-- A record whose size, modified time and checksum agree with a record
freshly built from the disk is reported unchanged by the detector. -/
theorem hasFileChanged_false_of_fields {disk : Disk} {now p : String}
    {rec r' : FileRecord} (h : createFileRecord disk now p = some rec)
    (hs : r'.size = rec.size) (hm : r'.modified_time = rec.modified_time)
    (hc : r'.checksum = rec.checksum) :
    hasFileChanged disk p r' = false := by
  obtain ⟨m, c, hstat, hcs, hrec⟩ := createFileRecord_eq_some h
  rw [hrec] at hs hm hc
  simp only [hasFileChanged, hasFileChangedI, hstat, hcs, hs, hm, hc,
    bne_self_eq_false, Bool.or_self]
  simp

/-- If building a fresh record fails, the detector reports changed. -/
theorem hasFileChanged_true_of_createFileRecord_none {disk : Disk}
    {now p : String} {rec : FileRecord}
    (h : createFileRecord disk now p = none) :
    hasFileChanged disk p rec = true := by
  unfold createFileRecord at h
  cases hstat : statFile disk p with
  | none => simp [hasFileChanged, hasFileChangedI, hstat]
  | some m =>
    rw [hstat] at h
    cases hcs : calculateChecksum disk p with
    | none =>
      simp only [hasFileChanged, hasFileChangedI, hstat, hcs]
      split
      · rfl
      · rfl
    | some c => rw [hcs] at h; cases h

/-! ### `find?` over the store -/

theorem find?_path_eq_none {s : Store} {p : String}
    (h : s.find? (fun r => r.file_path == p) = none) :
    ∀ r ∈ s, r.file_path ≠ p := by
  intro r hr
  have := List.find?_eq_none.mp h r hr
  simpa using this

theorem find?_path_eq_some {s : Store} {p : String} {r : FileRecord}
    (h : s.find? (fun r => r.file_path == p) = some r) :
    r ∈ s ∧ r.file_path = p := by
  refine ⟨List.mem_of_find?_eq_some h, ?_⟩
  have := List.find?_some h
  simpa using this

theorem find?_of_mem_nodup {s : Store} {p : String} {r : FileRecord}
    (hnd : (s.map (fun x => x.file_path)).Nodup) (hr : r ∈ s)
    (hp : r.file_path = p) :
    s.find? (fun x => x.file_path == p) = some r := by
  induction s with
  | nil => cases hr
  | cons a t ih =>
    simp only [List.map_cons, List.nodup_cons] at hnd
    rcases List.mem_cons.mp hr with rfl | hrt
    · simp [List.find?_cons, hp]
    · have hap : a.file_path ≠ p := by
        intro hap
        exact hnd.1 (hap ▸ hp ▸ List.mem_map_of_mem (fun x => x.file_path) hrt)
      have hb : (a.file_path == p) = false := by simp [hap]
      simp only [List.find?_cons, hb]
      exact ih hnd.2 hrt

theorem find?_append_path {s t : Store} {p : String} :
    (s ++ t).find? (fun x => x.file_path == p) =
      ((s.find? (fun x => x.file_path == p)).or
        (t.find? (fun x => x.file_path == p))) := by
  induction s with
  | nil => simp
  | cons a s ih =>
    by_cases h : a.file_path = p
    · simp [List.find?_cons, h]
    · have hb : (a.file_path == p) = false := by simp [h]
      simp only [List.cons_append, List.find?_cons, hb]
      exact ih

/-! ### Frame facts about the SQL statements -/

theorem updateRow_file_path (rec r : FileRecord) :
    (updateRow rec r).file_path = r.file_path := by
  unfold updateRow; split <;> rfl

theorem updateRow_of_ne {rec r : FileRecord}
    (h : r.file_path ≠ rec.file_path) : updateRow rec r = r := by
  unfold updateRow
  rw [if_neg (by simp [h])]

theorem sqlUpdate_map_path (s : Store) (rec : FileRecord) :
    (sqlUpdate s rec).map (fun x => x.file_path) =
      s.map (fun x => x.file_path) := by
  unfold sqlUpdate
  rw [List.map_map]
  exact List.map_congr_left (fun r _ => updateRow_file_path rec r)

theorem find?_sqlUpdate_ne {s : Store} {rec : FileRecord} {q : String}
    (h : q ≠ rec.file_path) :
    (sqlUpdate s rec).find? (fun x => x.file_path == q) =
      s.find? (fun x => x.file_path == q) := by
  induction s with
  | nil => rfl
  | cons a s ih =>
    simp only [sqlUpdate, List.map_cons, List.find?_cons] at *
    by_cases ha : a.file_path = q
    · have hb1 : ((updateRow rec a).file_path == q) = true := by
        simp [updateRow_file_path, ha]
      have hb2 : (a.file_path == q) = true := by simp [ha]
      simp only [hb1, hb2]
      rw [updateRow_of_ne (by rw [ha]; exact h)]
    · have hb1 : ((updateRow rec a).file_path == q) = false := by
        simp [updateRow_file_path, ha]
      have hb2 : (a.file_path == q) = false := by simp [ha]
      simp only [hb1, hb2]
      exact ih

theorem mem_sqlDelete {s : Store} {p : String} {r : FileRecord} :
    r ∈ sqlDelete s p ↔ r ∈ s ∧ r.file_path ≠ p := by
  unfold sqlDelete
  rw [List.mem_filter]
  simp

theorem sqlDelete_sublist (s : Store) (p : String) :
    (sqlDelete s p).Sublist s :=
  List.filter_sublist s

/-! ### The per-file loop of `performInitialSync` -/

theorem processFiles_nil (disk : Disk) (now : String) (S0 : Store)
    (st : Store × Ops) : processFiles disk now S0 [] st = (st, none) := rfl

theorem processFiles_cons_ok {disk : Disk} {now : String} {S0 : Store}
    {p : String} {rest : List String} {st st1 : Store × Ops}
    (h : processFile disk now S0 st p = Except.ok st1) :
    processFiles disk now S0 (p :: rest) st =
      processFiles disk now S0 rest st1 := by
  simp only [processFiles, h]

theorem processFiles_cons_error {disk : Disk} {now : String} {S0 : Store}
    {p : String} {rest : List String} {st : Store × Ops} {e : String}
    (h : processFile disk now S0 st p = Except.error e) :
    processFiles disk now S0 (p :: rest) st = (st, some e) := by
  simp only [processFiles, h]

/-- Main invariant of the insert/update loop: with distinct scanned paths,
a duplicate-free store that still agrees with the records loaded at the
start of the pass, and every scanned file readable, the loop succeeds and
afterwards (1) paths are still duplicate-free, (2) the stored paths are the
old ones plus the scanned ones, (3) every scanned path has a record the
change detector considers up to date, (4) records at unscanned paths are
untouched, and the loop performs no deletes. -/
theorem processFiles_ok (disk : Disk) (now : String) (S0 : Store) :
    ∀ (paths : List String) (s : Store) (ops : Ops),
    paths.Nodup →
    (∀ p ∈ paths, (createFileRecord disk now p).isSome) →
    (s.map (fun x => x.file_path)).Nodup →
    (∀ p ∈ paths, s.find? (fun r => r.file_path == p) =
        S0.find? (fun r => r.file_path == p)) →
    ∃ s' ops',
      processFiles disk now S0 paths (s, ops) = ((s', ops'), none) ∧
      (s'.map (fun x => x.file_path)).Nodup ∧
      (∀ q, q ∈ s'.map (fun x => x.file_path) ↔
        (q ∈ s.map (fun x => x.file_path) ∨ q ∈ paths)) ∧
      (∀ p ∈ paths, ∃ r ∈ s', r.file_path = p ∧
        hasFileChanged disk p r = false) ∧
      (∀ r ∈ s', r.file_path ∉ paths → r ∈ s) ∧
      (∀ q, q ∉ paths → s'.find? (fun r => r.file_path == q) =
        s.find? (fun r => r.file_path == q)) ∧
      ops'.deletes = ops.deletes := by
  intro paths
  induction paths with
  | nil =>
    intro s ops _ _ hs _
    exact ⟨s, ops, rfl, hs, by simp, by simp, fun r hr _ => hr,
      fun q _ => rfl, rfl⟩
  | cons p rest ih =>
    intro s ops hnd hread hs hfind
    obtain ⟨hpnotin, hndrest⟩ := List.nodup_cons.mp hnd
    obtain ⟨rec, hrec⟩ := Option.isSome_iff_exists.mp
      (hread p (List.mem_cons_self p rest))
    have hrecp : rec.file_path = p := createFileRecord_path hrec
    have hfp := hfind p (List.mem_cons_self p rest)
    cases hS0find : S0.find? (fun r => r.file_path == p) with
    | none =>
      -- new file: insert
      have hsfind : s.find? (fun r => r.file_path == p) = none := by
        rw [hfp, hS0find]
      have hnotin := find?_path_eq_none hsfind
      have hany : s.any (fun r => r.file_path == rec.file_path) = false := by
        rw [List.any_eq_false]
        intro r hr
        simp [hrecp, hnotin r hr]
      have hpf : processFile disk now S0 (s, ops) p =
          Except.ok (s ++ [{ rec with id := some (freshId s) }],
            { ops with inserts := ops.inserts + 1 }) := by
        simp only [processFile, hS0find, hrec, sqlInsert, hany]
        rfl
      set rec1 : FileRecord := { rec with id := some (freshId s) } with hrec1
      have hrec1p : rec1.file_path = p := hrecp
      have hs1 : ((s ++ [rec1]).map (fun x => x.file_path)).Nodup := by
        rw [List.map_append]
        refine List.Nodup.append hs (by simp) ?_
        intro a ha hb
        simp only [List.map_cons, List.map_nil, List.mem_singleton] at hb
        obtain ⟨r, hr, hrq⟩ := List.mem_map.mp ha
        exact hnotin r hr (by rw [hrq, hb, hrec1p])
      have hfind1 : ∀ q ∈ rest,
          (s ++ [rec1]).find? (fun r => r.file_path == q) =
            S0.find? (fun r => r.file_path == q) := by
        intro q hq
        have hqp : q ≠ p := fun h => hpnotin (h ▸ hq)
        rw [find?_append_path]
        have hb : (rec1.file_path == q) = false := by
          rw [hrec1p]; simpa using Ne.symm hqp
        have : [rec1].find? (fun r => r.file_path == q) = none := by
          simp only [List.find?_cons, hb]; rfl
        rw [this, hfind q (List.mem_cons_of_mem _ hq)]
        cases S0.find? (fun r => r.file_path == q) <;> rfl
      obtain ⟨s', ops', hps, hnd', hmem, hfresh, hsub, hpres, hdel⟩ :=
        ih (s ++ [rec1]) { ops with inserts := ops.inserts + 1 } hndrest
          (fun q hq => hread q (List.mem_cons_of_mem _ hq)) hs1 hfind1
      refine ⟨s', ops', ?_, hnd', ?_, ?_, ?_, ?_, hdel⟩
      · rw [processFiles_cons_ok hpf, hps]
      · intro q
        rw [hmem q, List.map_append]
        simp only [List.mem_append, List.map_cons, List.map_nil,
          List.mem_singleton, List.mem_cons, hrec1p, hrecp]
        tauto
      · intro q hq
        rcases List.mem_cons.mp hq with rfl | hqrest
        · have hfq := hpres q hpnotin
          have hb : (rec1.file_path == q) = true := by
            rw [hrec1p]; simp
          have hone : [rec1].find? (fun r => r.file_path == q) =
              some rec1 := by simp only [List.find?_cons, hb]
          rw [find?_append_path, hsfind, hone] at hfq
          obtain ⟨hmem', hpath'⟩ := find?_path_eq_some hfq
          exact ⟨rec1, hmem', hpath',
            hasFileChanged_false_of_fields hrec rfl rfl rfl⟩
        · exact hfresh q hqrest
      · intro r hr hnp
        have hnrest : r.file_path ∉ rest := fun h =>
          hnp (List.mem_cons_of_mem _ h)
        have := hsub r hr hnrest
        rcases List.mem_append.mp this with h | h
        · exact h
        · exfalso
          rw [List.mem_singleton] at h
          exact hnp (h ▸ hrec1p ▸ List.mem_cons_self p rest)
      · intro q hq
        have hqrest : q ∉ rest := fun h => hq (List.mem_cons_of_mem _ h)
        have hqp : q ≠ p := fun h => hq (h ▸ List.mem_cons_self p rest)
        rw [hpres q hqrest, find?_append_path]
        have hb : (rec1.file_path == q) = false := by
          rw [hrec1p]; simpa using Ne.symm hqp
        have : [rec1].find? (fun r => r.file_path == q) = none := by
          simp only [List.find?_cons, hb]; rfl
        rw [this]
        cases s.find? (fun r => r.file_path == q) <;> rfl
    | some r0 =>
      have hsfind : s.find? (fun r => r.file_path == p) = some r0 := by
        rw [hfp, hS0find]
      obtain ⟨hr0s, hr0p⟩ := find?_path_eq_some hsfind
      cases hchg : hasFileChanged disk p r0 with
      | false =>
        -- unchanged file: no operation
        have hpf : processFile disk now S0 (s, ops) p =
            Except.ok (s, ops) := by
          simp only [processFile, hS0find, hchg]
          rfl
        obtain ⟨s', ops', hps, hnd', hmem, hfresh, hsub, hpres, hdel⟩ :=
          ih s ops hndrest
            (fun q hq => hread q (List.mem_cons_of_mem _ hq)) hs
            (fun q hq => hfind q (List.mem_cons_of_mem _ hq))
        refine ⟨s', ops', ?_, hnd', ?_, ?_, ?_, ?_, hdel⟩
        · rw [processFiles_cons_ok hpf, hps]
        · intro q
          rw [hmem q]
          constructor
          · rintro (h | h)
            · exact Or.inl h
            · exact Or.inr (List.mem_cons_of_mem _ h)
          · rintro (h | h)
            · exact Or.inl h
            · rcases List.mem_cons.mp h with rfl | h
              · exact Or.inl (hr0p ▸ List.mem_map_of_mem _ hr0s)
              · exact Or.inr h
        · intro q hq
          rcases List.mem_cons.mp hq with rfl | hqrest
          · have hfq := hpres q hpnotin
            rw [hsfind] at hfq
            obtain ⟨hmem', hpath'⟩ := find?_path_eq_some hfq
            exact ⟨r0, hmem', hpath', hchg⟩
          · exact hfresh q hqrest
        · intro r hr hnp
          exact hsub r hr (fun h => hnp (List.mem_cons_of_mem _ h))
        · intro q hq
          exact hpres q (fun h => hq (List.mem_cons_of_mem _ h))
      | true =>
        -- changed file: update
        set rec2 : FileRecord := { rec with id := r0.id } with hrec2
        have hrec2p : rec2.file_path = p := hrecp
        have hpf : processFile disk now S0 (s, ops) p =
            Except.ok (sqlUpdate s rec2,
              { ops with updates := ops.updates + 1 }) := by
          simp only [processFile, hS0find, hchg, hrec]
          rfl
        have hs1 : ((sqlUpdate s rec2).map (fun x => x.file_path)).Nodup := by
          rw [sqlUpdate_map_path]; exact hs
        have hfind1 : ∀ q ∈ rest,
            (sqlUpdate s rec2).find? (fun r => r.file_path == q) =
              S0.find? (fun r => r.file_path == q) := by
          intro q hq
          have hqp : q ≠ p := fun h => hpnotin (h ▸ hq)
          rw [find?_sqlUpdate_ne (hrec2p ▸ hqp)]
          exact hfind q (List.mem_cons_of_mem _ hq)
        obtain ⟨s', ops', hps, hnd', hmem, hfresh, hsub, hpres, hdel⟩ :=
          ih (sqlUpdate s rec2) { ops with updates := ops.updates + 1 }
            hndrest (fun q hq => hread q (List.mem_cons_of_mem _ hq))
            hs1 hfind1
        have hupd : updateRow rec2 r0 =
            { r0 with size := rec2.size, modified_time := rec2.modified_time,
                      checksum := rec2.checksum,
                      updated_at := rec2.updated_at } := by
          unfold updateRow
          rw [if_pos (by simp [hr0p, hrecp])]
        refine ⟨s', ops', ?_, hnd', ?_, ?_, ?_, ?_, hdel⟩
        · rw [processFiles_cons_ok hpf, hps]
        · intro q
          rw [hmem q, sqlUpdate_map_path]
          constructor
          · rintro (h | h)
            · exact Or.inl h
            · exact Or.inr (List.mem_cons_of_mem _ h)
          · rintro (h | h)
            · exact Or.inl h
            · rcases List.mem_cons.mp h with rfl | h
              · exact Or.inl (hr0p ▸ List.mem_map_of_mem _ hr0s)
              · exact Or.inr h
        · intro q hq
          rcases List.mem_cons.mp hq with rfl | hqrest
          · have hfq := hpres q hpnotin
            have hmemupd : updateRow rec2 r0 ∈ sqlUpdate s rec2 :=
              List.mem_map_of_mem _ hr0s
            have hfq2 : (sqlUpdate s rec2).find?
                (fun r => r.file_path == q) = some (updateRow rec2 r0) :=
              find?_of_mem_nodup hs1 hmemupd
                (by rw [updateRow_file_path, hr0p])
            rw [hfq2] at hfq
            obtain ⟨hmem', hpath'⟩ := find?_path_eq_some hfq
            refine ⟨updateRow rec2 r0, hmem', hpath', ?_⟩
            exact hasFileChanged_false_of_fields hrec
              (by rw [hupd]) (by rw [hupd]) (by rw [hupd])
          · exact hfresh q hqrest
        · intro r hr hnp
          have hnrest : r.file_path ∉ rest := fun h =>
            hnp (List.mem_cons_of_mem _ h)
          have hr1 := hsub r hr hnrest
          obtain ⟨r1, hr1s, hr1e⟩ := List.mem_map.mp hr1
          by_cases hcase : r1.file_path = rec2.file_path
          · exfalso
            have : r.file_path = p := by
              rw [← hr1e, updateRow_file_path, hcase, hrec2p]
            exact hnp (this ▸ List.mem_cons_self p rest)
          · rw [← hr1e, updateRow_of_ne hcase]
            exact hr1s
        · intro q hq
          have hqp : q ≠ p := fun h => hq (h ▸ List.mem_cons_self p rest)
          rw [hpres q (fun h => hq (List.mem_cons_of_mem _ h)),
            find?_sqlUpdate_ne (hrec2p ▸ hqp)]

/-- A successful `processFile` step never deletes. -/
theorem processFile_deletes {disk : Disk} {now : String} {S0 : Store}
    {st st2 : Store × Ops} {p : String}
    (h : processFile disk now S0 st p = Except.ok st2) :
    st2.2.deletes = st.2.deletes := by
  unfold processFile at h
  split at h
  · split at h
    · cases h
    · split at h
      · cases h
      · cases h; rfl
  · split at h
    · split at h
      · cases h
      · cases h; rfl
    · cases h; rfl

/-- The per-file loop never deletes, whether it succeeds or aborts. -/
theorem processFiles_deletes (disk : Disk) (now : String) (S0 : Store) :
    ∀ (paths : List String) (st : Store × Ops),
      ((processFiles disk now S0 paths st).1).2.deletes = st.2.deletes := by
  intro paths
  induction paths with
  | nil => intro st; rfl
  | cons p rest ih =>
    intro st
    cases hpf : processFile disk now S0 st p with
    | error e => rw [processFiles_cons_error hpf]
    | ok st2 =>
      rw [processFiles_cons_ok hpf, ih st2, processFile_deletes hpf]

/-- When every scanned path already has an up-to-date record in the loaded
map, the per-file loop is the identity. -/
theorem processFiles_noop (disk : Disk) (now : String) (S0 : Store) :
    ∀ (paths : List String) (st : Store × Ops),
      (∀ p ∈ paths, ∃ r, S0.find? (fun x => x.file_path == p) = some r ∧
        hasFileChanged disk p r = false) →
      processFiles disk now S0 paths st = (st, none) := by
  intro paths
  induction paths with
  | nil => intro st _; rfl
  | cons p rest ih =>
    intro st h
    obtain ⟨r, hfr, hch⟩ := h p (List.mem_cons_self p rest)
    have hpf : processFile disk now S0 st p = Except.ok st := by
      simp only [processFile, hfr, hch]
      rfl
    rw [processFiles_cons_ok hpf]
    exact ih st (fun q hq => h q (List.mem_cons_of_mem _ hq))

/-- If a scanned file cannot be inspected, the per-file loop aborts with an
error (at that file or earlier). -/
theorem processFiles_fails (disk : Disk) (now : String) (S0 : Store) :
    ∀ (paths : List String) (st : Store × Ops) (p : String),
      p ∈ paths → createFileRecord disk now p = none →
      ((processFiles disk now S0 paths st).2).isSome = true := by
  intro paths
  induction paths with
  | nil => intro st p h; cases h
  | cons q rest ih =>
    intro st p hp hnone
    cases hpf : processFile disk now S0 st q with
    | error e => rw [processFiles_cons_error hpf]; rfl
    | ok st2 =>
      rw [processFiles_cons_ok hpf]
      rcases List.mem_cons.mp hp with rfl | hp2
      · exfalso
        unfold processFile at hpf
        cases hf : S0.find? (fun r => r.file_path == p) with
        | none => simp [hf, hnone] at hpf
        | some r0 =>
          simp [hf, hasFileChanged_true_of_createFileRecord_none hnone,
            hnone] at hpf
      · exact ih st2 p hp2 hnone

/-! ### The delete-stale loop -/

theorem deleteStale_cons (scanned : List String) (r0 : FileRecord)
    (rs : Store) (st : Store × Ops) :
    deleteStale scanned (r0 :: rs) st =
      deleteStale scanned rs
        (if scanned.contains r0.file_path then st
         else (sqlDelete st.1 r0.file_path,
               { st.2 with deletes := st.2.deletes + 1 })) := by
  unfold deleteStale
  rw [List.foldl_cons]

theorem deleteStale_mem (scanned : List String) :
    ∀ (rs : Store) (st : Store × Ops) (r : FileRecord),
      r ∈ (deleteStale scanned rs st).1 ↔
        (r ∈ st.1 ∧ ∀ r0 ∈ rs, scanned.contains r0.file_path = false →
          r.file_path ≠ r0.file_path) := by
  intro rs
  induction rs with
  | nil =>
    intro st r
    simp [deleteStale]
  | cons r0 rs ih =>
    intro st r
    rw [deleteStale_cons]
    by_cases hc : scanned.contains r0.file_path = true
    · rw [if_pos hc, ih]
      constructor
      · rintro ⟨h1, h2⟩
        refine ⟨h1, ?_⟩
        intro r1 hr1 hns
        rcases List.mem_cons.mp hr1 with rfl | hr1
        · rw [hc] at hns; cases hns
        · exact h2 r1 hr1 hns
      · rintro ⟨h1, h2⟩
        exact ⟨h1, fun r1 hr1 hns => h2 r1 (List.mem_cons_of_mem _ hr1) hns⟩
    · rw [if_neg hc, ih]
      have hcf : scanned.contains r0.file_path = false :=
        Bool.eq_false_iff.mpr hc
      constructor
      · rintro ⟨h1, h2⟩
        obtain ⟨h1m, h1ne⟩ := mem_sqlDelete.mp h1
        refine ⟨h1m, ?_⟩
        intro r1 hr1 hns
        rcases List.mem_cons.mp hr1 with rfl | hr1
        · exact h1ne
        · exact h2 r1 hr1 hns
      · rintro ⟨h1, h2⟩
        refine ⟨mem_sqlDelete.mpr ⟨h1, ?_⟩, ?_⟩
        · exact h2 r0 (List.mem_cons_self r0 rs) hcf
        · intro r1 hr1 hns
          exact h2 r1 (List.mem_cons_of_mem _ hr1) hns

theorem deleteStale_fst_sublist (scanned : List String) :
    ∀ (rs : Store) (st : Store × Ops),
      ((deleteStale scanned rs st).1).Sublist st.1 := by
  intro rs
  induction rs with
  | nil => intro st; exact List.Sublist.refl _
  | cons r0 rs ih =>
    intro st
    rw [deleteStale_cons]
    by_cases hc : scanned.contains r0.file_path = true
    · rw [if_pos hc]; exact ih st
    · rw [if_neg hc]
      exact (ih _).trans (sqlDelete_sublist st.1 r0.file_path)

theorem deleteStale_noop (scanned : List String) :
    ∀ (rs : Store) (st : Store × Ops),
      (∀ r0 ∈ rs, scanned.contains r0.file_path = true) →
      deleteStale scanned rs st = st := by
  intro rs
  induction rs with
  | nil => intro st _; rfl
  | cons r0 rs ih =>
    intro st h
    rw [deleteStale_cons, if_pos (h r0 (List.mem_cons_self r0 rs))]
    exact ih st (fun r1 hr1 => h r1 (List.mem_cons_of_mem _ hr1))

/-! ### Scanning -/

/-- An unreadable directory anywhere in the tree aborts the whole scan. -/
theorem scanEntries_error_of_hasUnreadable :
    ∀ (tree : List FsEntry), hasUnreadable tree = true →
      ∀ (dirPath : String), ∃ e, scanEntries dirPath tree = Except.error e := by
  intro tree
  induction tree using hasUnreadable.induct with
  | case1 => intro h; simp [hasUnreadable] at h
  | case2 name rest ih =>
    intro h dirPath
    simp only [hasUnreadable] at h
    obtain ⟨e, he⟩ := ih h dirPath
    refine ⟨e, ?_⟩
    simp only [scanEntries, he]
  | case3 name sub rest ihsub ihrest =>
    intro h dirPath
    simp only [hasUnreadable, Bool.or_eq_true] at h
    cases hsub : scanEntries (dirPath ++ "/" ++ name) sub with
    | error e =>
      refine ⟨e, ?_⟩
      simp only [scanEntries, hsub]
    | ok head =>
      have hrest : hasUnreadable rest = true := by
        rcases h with h | h
        · obtain ⟨e, he⟩ := ihsub h (dirPath ++ "/" ++ name)
          rw [he] at hsub; cases hsub
        · exact h
      obtain ⟨e, he⟩ := ihrest hrest dirPath
      refine ⟨e, ?_⟩
      simp only [scanEntries, hsub, he]
  | case4 name rest =>
    intro _ dirPath
    refine ⟨"Failed to scan directory " ++ dirPath ++ "/" ++ name, ?_⟩
    simp only [scanEntries]

/-! ### Postconditions of a full reconciliation pass -/

/-- After a successful `performInitialSync`, every scanned path has a
record the change detector considers up to date, every record's path was
scanned, and paths are duplicate-free. -/
theorem initialSync_post {root : String} {tree : List FsEntry} {disk : Disk}
    {S0 : Store} {now : String} {paths : List String}
    (hscan : scanEntries root tree = Except.ok paths)
    (hnp : paths.Nodup)
    (hs0 : (S0.map (fun x => x.file_path)).Nodup)
    (hread : ∀ p ∈ paths, (createFileRecord disk now p).isSome) :
    ∃ s1 ops1,
      performInitialSync root tree disk (some S0) now =
        ((some s1, ops1), none) ∧
      (s1.map (fun x => x.file_path)).Nodup ∧
      (∀ p ∈ paths, ∃ r ∈ s1, r.file_path = p ∧
        hasFileChanged disk p r = false) ∧
      (∀ r ∈ s1, r.file_path ∈ paths) := by
  obtain ⟨s', ops', hps, hnd', hmem, hfresh, hsub, hpres, hdel⟩ :=
    processFiles_ok disk now S0 paths S0 zeroOps hnp hread hs0
      (fun p _ => rfl)
  refine ⟨(deleteStale paths S0 (s', ops')).1,
          (deleteStale paths S0 (s', ops')).2, ?_, ?_, ?_, ?_⟩
  · simp only [performInitialSync, hscan, hps]
  · have hsl := deleteStale_fst_sublist paths S0 (s', ops')
    exact List.Nodup.sublist (hsl.map (fun x => x.file_path)) hnd'
  · intro p hp
    obtain ⟨r, hr, hrp, hch⟩ := hfresh p hp
    refine ⟨r, ?_, hrp, hch⟩
    rw [deleteStale_mem]
    refine ⟨hr, ?_⟩
    intro r0 hr0 hns heq
    have : paths.contains r0.file_path = true := by
      rw [← heq, hrp]
      simpa [List.contains] using hp
    rw [this] at hns
    cases hns
  · intro r hr
    rw [deleteStale_mem] at hr
    obtain ⟨hr1, hcond⟩ := hr
    by_contra hnp2
    have hrS0 : r ∈ S0 := hsub r hr1 hnp2
    have hcf : paths.contains r.file_path = false := by
      simpa [List.contains] using hnp2
    exact hcond r hrS0 hcf rfl

/-- A pass over a store that is already in sync with the scan performs no
operation at all. -/
theorem initialSync_second_run {root : String} {tree : List FsEntry}
    {disk : Disk} {s1 : Store} {now2 : String} {paths : List String}
    (hscan : scanEntries root tree = Except.ok paths)
    (hnd : (s1.map (fun x => x.file_path)).Nodup)
    (hfresh : ∀ p ∈ paths, ∃ r ∈ s1, r.file_path = p ∧
      hasFileChanged disk p r = false)
    (hcover : ∀ r ∈ s1, r.file_path ∈ paths) :
    performInitialSync root tree disk (some s1) now2 =
      ((some s1, zeroOps), none) := by
  have hnoop : processFiles disk now2 s1 paths (s1, zeroOps) =
      ((s1, zeroOps), none) := by
    apply processFiles_noop
    intro p hp
    obtain ⟨r, hr, hrp, hch⟩ := hfresh p hp
    exact ⟨r, find?_of_mem_nodup hnd hr hrp, hch⟩
  have hds : deleteStale paths s1 (s1, zeroOps) = (s1, zeroOps) := by
    apply deleteStale_noop
    intro r0 hr0
    simpa [List.contains] using hcover r0 hr0
  simp only [performInitialSync, hscan, hnoop, hds]

/-- A row update at a matching path rewrites exactly the four updatable
columns. -/
theorem updateRow_of_eq {rec r : FileRecord}
    (h : r.file_path = rec.file_path) :
    updateRow rec r =
      { r with size := rec.size, modified_time := rec.modified_time,
               checksum := rec.checksum, updated_at := rec.updated_at } := by
  unfold updateRow
  rw [if_pos (by simp [h])]

/-! ## The claims -/

/-- Claim C1 (code bug, evaluated at the failing input): an `add` event for
the untracked path `"a"` on an empty store — with the file perfectly
readable — leaves the store empty and reports no error: the `UPDATE`
matches zero rows yet succeeds, so the `catch`-based insert fallback never
runs and the event is a silent no-op, in contradiction with the claim that
an add event for an untracked path results in exactly one insert. -/
theorem c1_add_event_silent_noop :
    handleFileAddOrChange (some [])
      [("a", { size := 1, mtimeMs := 1000, checksum? := some "c" })]
      "t" "a" = (some [], none) := by
  decide

/-- Claim C2: for every filesystem (scan result) and prior store state
(with the database's path-uniqueness invariant), `performInitialSync`
succeeds whenever every scanned file is readable, and afterwards the store
holds exactly one record per scanned path and none for any other path. -/
theorem c2_initial_sync_completeness
    (root : String) (tree : List FsEntry) (disk : Disk) (S0 : Store)
    (now : String) (paths : List String)
    (hscan : scanEntries root tree = Except.ok paths)
    (hnp : paths.Nodup)
    (hs0 : (S0.map (fun x => x.file_path)).Nodup)
    (hread : ∀ p ∈ paths, (createFileRecord disk now p).isSome) :
    ∃ s1 ops1,
      performInitialSync root tree disk (some S0) now =
        ((some s1, ops1), none) ∧
      ∀ q, (s1.map (fun x => x.file_path)).count q =
        if q ∈ paths then 1 else 0 := by
  obtain ⟨s1, ops1, heq, hnd, hfresh, hcover⟩ :=
    initialSync_post hscan hnp hs0 hread
  refine ⟨s1, ops1, heq, ?_⟩
  intro q
  by_cases hq : q ∈ paths
  · rw [if_pos hq]
    obtain ⟨r, hr, hrp, _⟩ := hfresh q hq
    have hmem : q ∈ s1.map (fun x => x.file_path) :=
      hrp ▸ List.mem_map_of_mem _ hr
    have h1 : 0 < (s1.map (fun x => x.file_path)).count q :=
      List.count_pos_iff.mpr hmem
    have h2 : (s1.map (fun x => x.file_path)).count q ≤ 1 :=
      List.nodup_iff_count_le_one.mp hnd q
    omega
  · rw [if_neg hq, List.count_eq_zero]
    intro hmem
    obtain ⟨r, hr, hrq⟩ := List.mem_map.mp hmem
    exact hq (hrq ▸ hcover r hr)

/-- Witness for C2: a one-file filesystem synced into an empty store. -/
theorem c2_witness :
    (scanEntries "/r" [FsEntry.file "a.txt"] = Except.ok ["/r/a.txt"] ∧
     (["/r/a.txt"] : List String).Nodup ∧
     ((([] : Store)).map (fun x => x.file_path)).Nodup ∧
     (∀ p ∈ ["/r/a.txt"],
       (createFileRecord
         [("/r/a.txt", { size := 5, mtimeMs := 2000, checksum? := some "x" })]
         "t" p).isSome)) ∧
    (∃ s1 ops1,
      performInitialSync "/r" [FsEntry.file "a.txt"]
        [("/r/a.txt", { size := 5, mtimeMs := 2000, checksum? := some "x" })]
        (some []) "t" = ((some s1, ops1), none) ∧
      ∀ q, (s1.map (fun x => x.file_path)).count q =
        if q ∈ ["/r/a.txt"] then 1 else 0) :=
  ⟨⟨by simp [scanEntries], by decide, by decide, by decide⟩,
   c2_initial_sync_completeness "/r" [FsEntry.file "a.txt"]
     [("/r/a.txt", { size := 5, mtimeMs := 2000, checksum? := some "x" })]
     [] "t" ["/r/a.txt"] (by simp [scanEntries]) (by decide) (by decide)
     (by decide)⟩

/-- Claim C3: when the stat succeeds, a differing size or whole-second
modification time makes the detector answer `true` without reaching the
checksum computation; when both match, the checksum is computed and the
answer is `true` exactly when it differs from the stored one. -/
theorem c3_change_detector_cheap_first
    (disk : Disk) (p : String) (rec : FileRecord) (m : FileMeta)
    (hstat : statFile disk p = some m) :
    ((m.size ≠ rec.size ∨ m.mtimeMs.fdiv 1000 ≠ rec.modified_time) →
      hasFileChangedI disk p rec = (true, false)) ∧
    (m.size = rec.size → m.mtimeMs.fdiv 1000 = rec.modified_time →
      ∀ c, calculateChecksum disk p = some c →
        (hasFileChangedI disk p rec).2 = true ∧
        ((hasFileChangedI disk p rec).1 = true ↔ c ≠ rec.checksum)) := by
  constructor
  · intro h
    have hcond : (m.size != rec.size ||
        m.mtimeMs.fdiv 1000 != rec.modified_time) = true := by
      rcases h with h | h <;> simp [h]
    simp only [hasFileChangedI, hstat, hcond, if_true]
  · intro h1 h2 c hc
    have hcond : (m.size != rec.size ||
        m.mtimeMs.fdiv 1000 != rec.modified_time) = false := by
      simp [h1, h2]
    simp only [hasFileChangedI, hstat, hcond, Bool.false_eq_true,
      if_false, hc]
    simp [bne_iff_ne]

/-- Witness for C3: size mismatch short-circuits; matching size and time
fall through to the checksum comparison. -/
theorem c3_witness :
    statFile [("a", { size := 2, mtimeMs := 1500, checksum? := some "x" })]
      "a" = some { size := 2, mtimeMs := 1500, checksum? := some "x" } ∧
    (((2 : Nat) ≠ 3 ∨ (1500 : Int).fdiv 1000 ≠ 1) →
      hasFileChangedI
        [("a", { size := 2, mtimeMs := 1500, checksum? := some "x" })] "a"
        { id := none, file_path := "a", size := 3, modified_time := 1,
          checksum := "y", created_at := "t", updated_at := "t" } =
        (true, false)) ∧
    ((2 : Nat) = 3 → (1500 : Int).fdiv 1000 = 1 →
      ∀ c, calculateChecksum
        [("a", { size := 2, mtimeMs := 1500, checksum? := some "x" })] "a" =
          some c →
        (hasFileChangedI
          [("a", { size := 2, mtimeMs := 1500, checksum? := some "x" })] "a"
          { id := none, file_path := "a", size := 3, modified_time := 1,
            checksum := "y", created_at := "t", updated_at := "t" }).2 =
          true ∧
        ((hasFileChangedI
          [("a", { size := 2, mtimeMs := 1500, checksum? := some "x" })] "a"
          { id := none, file_path := "a", size := 3, modified_time := 1,
            checksum := "y", created_at := "t", updated_at := "t" }).1 =
          true ↔ c ≠ "y")) := by
  refine ⟨by decide, ?_⟩
  exact c3_change_detector_cheap_first
    [("a", { size := 2, mtimeMs := 1500, checksum? := some "x" })] "a"
    { id := none, file_path := "a", size := 3, modified_time := 1,
      checksum := "y", created_at := "t", updated_at := "t" }
    { size := 2, mtimeMs := 1500, checksum? := some "x" } (by decide)

/-- Claim C4: with no filesystem change between two runs, the first
successful reconciliation produces a store on which the second run
performs zero inserts, zero updates and zero deletes, and leaves the
store exactly as it was (fixed point). -/
theorem c4_reconciliation_idempotent
    (root : String) (tree : List FsEntry) (disk : Disk) (S0 : Store)
    (now now2 : String) (paths : List String)
    (hscan : scanEntries root tree = Except.ok paths)
    (hnp : paths.Nodup)
    (hs0 : (S0.map (fun x => x.file_path)).Nodup)
    (hread : ∀ p ∈ paths, (createFileRecord disk now p).isSome) :
    ∃ s1 ops1,
      performInitialSync root tree disk (some S0) now =
        ((some s1, ops1), none) ∧
      performInitialSync root tree disk (some s1) now2 =
        ((some s1, zeroOps), none) := by
  obtain ⟨s1, ops1, heq, hnd, hfresh, hcover⟩ :=
    initialSync_post hscan hnp hs0 hread
  exact ⟨s1, ops1, heq, initialSync_second_run hscan hnd hfresh hcover⟩

/-- Witness for C4: second run over a one-file filesystem is a no-op. -/
theorem c4_witness :
    (scanEntries "/r" [FsEntry.file "a.txt"] = Except.ok ["/r/a.txt"] ∧
     (["/r/a.txt"] : List String).Nodup ∧
     ((([] : Store)).map (fun x => x.file_path)).Nodup ∧
     (∀ p ∈ ["/r/a.txt"],
       (createFileRecord
         [("/r/a.txt", { size := 5, mtimeMs := 2000, checksum? := some "x" })]
         "t" p).isSome)) ∧
    (∃ s1 ops1,
      performInitialSync "/r" [FsEntry.file "a.txt"]
        [("/r/a.txt", { size := 5, mtimeMs := 2000, checksum? := some "x" })]
        (some []) "t" = ((some s1, ops1), none) ∧
      performInitialSync "/r" [FsEntry.file "a.txt"]
        [("/r/a.txt", { size := 5, mtimeMs := 2000, checksum? := some "x" })]
        (some s1) "t2" = ((some s1, zeroOps), none)) :=
  ⟨⟨by simp [scanEntries], by decide, by decide, by decide⟩,
   c4_reconciliation_idempotent "/r" [FsEntry.file "a.txt"]
     [("/r/a.txt", { size := 5, mtimeMs := 2000, checksum? := some "x" })]
     [] "t" "t2" ["/r/a.txt"] (by simp [scanEntries]) (by decide)
     (by decide) (by decide)⟩

/-- Claim C5: a failing stat, or a failing content read, never propagates
out of the detector (its type is total) and makes it answer `true`. -/
theorem c5_detector_failure_reports_changed
    (disk : Disk) (p : String) (rec : FileRecord) :
    (statFile disk p = none → hasFileChanged disk p rec = true) ∧
    (∀ m, statFile disk p = some m → m.checksum? = none →
      hasFileChanged disk p rec = true) := by
  constructor
  · intro h
    simp [hasFileChanged, hasFileChangedI, h]
  · intro m hm hcs
    have hc : calculateChecksum disk p = none := by
      simp [calculateChecksum, hm, hcs]
    simp only [hasFileChanged, hasFileChangedI, hm, hc]
    split <;> rfl

/-- Witness for C5: a vanished file (empty disk) is reported changed. -/
theorem c5_witness :
    statFile [] "a" = none ∧
    hasFileChanged [] "a"
      { id := none, file_path := "a", size := 3, modified_time := 1,
        checksum := "y", created_at := "t", updated_at := "t" } = true :=
  ⟨rfl, (c5_detector_failure_reports_changed [] "a"
    { id := none, file_path := "a", size := 3, modified_time := 1,
      checksum := "y", created_at := "t", updated_at := "t" }).1 rfl⟩

/-- Reduction of `performInitialSync` to its per-file loop once the scan
has succeeded and the database is initialized. -/
theorem performInitialSync_eq_processFiles
    {root : String} {tree : List FsEntry} {disk : Disk} {S0 : Store}
    {now : String} {paths : List String}
    (hscan : scanEntries root tree = Except.ok paths) :
    performInitialSync root tree disk (some S0) now =
      (match processFiles disk now S0 paths (S0, zeroOps) with
       | (st, some e) => ((some st.1, st.2), some e)
       | (st, none) =>
         ((some (deleteStale paths S0 st).1,
           (deleteStale paths S0 st).2), none)) := by
  simp only [performInitialSync, hscan]

/-- Claim C6: initial sync is all-or-nothing. An unreadable subdirectory
aborts the whole pass with the scan error and no operation performed; any
failed pass performs zero deletes (the delete-stale step never runs after
a failure); and a scanned file whose inspection fails aborts the pass. -/
theorem c6_initial_sync_all_or_nothing
    (root : String) (tree : List FsEntry) (disk : Disk) (db : Option Store)
    (now : String) :
    (hasUnreadable tree = true →
      ∃ e, performInitialSync root tree disk db now =
        ((db, zeroOps), some e)) ∧
    ((performInitialSync root tree disk db now).2.isSome = true →
      (performInitialSync root tree disk db now).1.2.deletes = 0) ∧
    (∀ paths S0 p, scanEntries root tree = Except.ok paths →
      db = some S0 → p ∈ paths → createFileRecord disk now p = none →
      (performInitialSync root tree disk db now).2.isSome = true) := by
  refine ⟨?_, ?_, ?_⟩
  · intro h
    obtain ⟨e, he⟩ := scanEntries_error_of_hasUnreadable tree h root
    exact ⟨e, by simp only [performInitialSync, he]⟩
  · cases hscan : scanEntries root tree with
    | error e =>
      intro _
      have heq : performInitialSync root tree disk db now =
          ((db, zeroOps), some e) := by
        simp only [performInitialSync, hscan]
      rw [heq]
      rfl
    | ok paths =>
      cases db with
      | none =>
        intro _
        have heq : performInitialSync root tree disk none now =
            ((none, zeroOps), some "Database not initialized") := by
          simp only [performInitialSync, hscan]
        rw [heq]
        rfl
      | some S0 =>
        rw [performInitialSync_eq_processFiles hscan]
        have hdel := processFiles_deletes disk now S0 paths (S0, zeroOps)
        cases hpr : processFiles disk now S0 paths (S0, zeroOps) with
        | mk st err =>
          rw [hpr] at hdel
          cases err with
          | some e => intro _; exact hdel
          | none => intro h; simp at h
  · intro paths S0 p hscan hdb hp hnone
    subst hdb
    have hfail := processFiles_fails disk now S0 paths (S0, zeroOps) p hp
      hnone
    rw [performInitialSync_eq_processFiles hscan]
    cases hpr : processFiles disk now S0 paths (S0, zeroOps) with
    | mk st err =>
      rw [hpr] at hfail
      cases err with
      | some e => rfl
      | none => simp at hfail

/-- Witness for C6: an unreadable subdirectory aborts a pass over an empty
store. -/
theorem c6_witness :
    hasUnreadable [FsEntry.unreadableDir "sub"] = true ∧
    (∃ e, performInitialSync "/r" [FsEntry.unreadableDir "sub"] []
      (some []) "t" = ((some [], zeroOps), some e)) :=
  ⟨by simp [hasUnreadable],
   (c6_initial_sync_all_or_nothing "/r" [FsEntry.unreadableDir "sub"] []
     (some []) "t").1 (by simp [hasUnreadable])⟩

/-- Claim C7 counterexample: a store failure during a `remove` event is
not confined to the event — the `unlink` callback calls
`#removeFileRecord`, which rethrows, so the error escapes the handler
instead of being logged and dropped, contradicting the claim for remove
events. -/
theorem c7_counterexample_remove_error_escapes :
    handleUnlinkEvent none "/w/a.txt" =
      Except.error "Database not initialized" := rfl

/-- Claim C7 as amended: for `add` and `change` events a failure during
inspection or the store operation is confined to the event — the handler
returns with the store untouched and only an error report — and a
subsequent event on any path is handled exactly as if the failed event had
never happened; for `remove` events, however, a store failure propagates
out of the handler uncaught. -/
theorem c7_amended_failure_isolation
    (db : Option Store) (disk : Disk) (now p q : String)
    (hfail : createFileRecord disk now p = none ∨ db = none) :
    handleFileAddOrChange db disk now p =
      (db, some ("Failed to handle file add/change for " ++ p)) ∧
    handleFileAddOrChange (handleFileAddOrChange db disk now p).1 disk now q
      = handleFileAddOrChange db disk now q ∧
    handleUnlinkEvent none p = Except.error "Database not initialized" := by
  have h1 : handleFileAddOrChange db disk now p =
      (db, some ("Failed to handle file add/change for " ++ p)) := by
    rcases hfail with h | h
    · simp only [handleFileAddOrChange, h]
    · subst h
      cases hc : createFileRecord disk now p <;>
        simp [handleFileAddOrChange, hc]
  exact ⟨h1, by rw [h1], rfl⟩

/-- Witness for C7's amended statement: an unreadable file on an empty
store. -/
theorem c7_witness :
    (createFileRecord [] "t" "a" = none ∨ (some [] : Option Store) = none) ∧
    (handleFileAddOrChange (some []) [] "t" "a" =
      (some [], some ("Failed to handle file add/change for " ++ "a")) ∧
     handleFileAddOrChange
       (handleFileAddOrChange (some []) [] "t" "a").1 [] "t" "b" =
       handleFileAddOrChange (some []) [] "t" "b" ∧
     handleUnlinkEvent none "a" =
       Except.error "Database not initialized") :=
  ⟨Or.inl rfl,
   c7_amended_failure_isolation (some []) [] "t" "a" "b" (Or.inl rfl)⟩

/-- Claim C8: removing a path with an initialized database always
succeeds; when no record for the path exists the store is unchanged, and
applying the removal twice equals applying it once. -/
theorem c8_handle_remove_idempotent (s : Store) (p : String) :
    removeFileRecord (some s) p = Except.ok (sqlDelete s p) ∧
    ((∀ r ∈ s, r.file_path ≠ p) → sqlDelete s p = s) ∧
    sqlDelete (sqlDelete s p) p = sqlDelete s p := by
  refine ⟨rfl, ?_, ?_⟩
  · intro h
    apply List.filter_eq_self.mpr
    intro r hr
    simpa using h r hr
  · unfold sqlDelete
    apply List.filter_eq_self.mpr
    intro r hr
    exact (List.mem_filter.mp hr).2

/-- Witness for C8: removing an absent path from a one-record store. -/
theorem c8_witness :
    (∀ r ∈ ([{ id := some 1, file_path := "b", size := 1,
               modified_time := 0, checksum := "c", created_at := "t",
               updated_at := "t" }] : Store), r.file_path ≠ "a") ∧
    (removeFileRecord
        (some ([{ id := some 1, file_path := "b", size := 1,
                  modified_time := 0, checksum := "c", created_at := "t",
                  updated_at := "t" }] : Store)) "a" =
      Except.ok (sqlDelete
        ([{ id := some 1, file_path := "b", size := 1, modified_time := 0,
            checksum := "c", created_at := "t",
            updated_at := "t" }] : Store) "a") ∧
     ((∀ r ∈ ([{ id := some 1, file_path := "b", size := 1,
                 modified_time := 0, checksum := "c", created_at := "t",
                 updated_at := "t" }] : Store), r.file_path ≠ "a") →
       sqlDelete ([{ id := some 1, file_path := "b", size := 1,
                     modified_time := 0, checksum := "c",
                     created_at := "t", updated_at := "t" }] : Store) "a" =
         ([{ id := some 1, file_path := "b", size := 1, modified_time := 0,
             checksum := "c", created_at := "t",
             updated_at := "t" }] : Store)) ∧
     sqlDelete (sqlDelete
        ([{ id := some 1, file_path := "b", size := 1, modified_time := 0,
            checksum := "c", created_at := "t",
            updated_at := "t" }] : Store) "a") "a"
       = sqlDelete
        ([{ id := some 1, file_path := "b", size := 1, modified_time := 0,
            checksum := "c", created_at := "t",
            updated_at := "t" }] : Store) "a") :=
  ⟨by decide,
   c8_handle_remove_idempotent
     [{ id := some 1, file_path := "b", size := 1, modified_time := 0,
        checksum := "c", created_at := "t", updated_at := "t" }] "a"⟩

/-- Claim C9: the `UPDATE` statement is frame-exact — each row keeps its
`id`, `file_path` and `created_at`; rows at other paths are untouched;
the matching row takes exactly the new `size`, `modified_time`,
`checksum` and `updated_at`. -/
theorem c9_update_frame (s : Store) (rec : FileRecord) :
    List.Forall₂ (fun r r' =>
      r'.id = r.id ∧ r'.file_path = r.file_path ∧
      r'.created_at = r.created_at ∧
      (r.file_path ≠ rec.file_path → r' = r) ∧
      (r.file_path = rec.file_path →
        r'.size = rec.size ∧ r'.modified_time = rec.modified_time ∧
        r'.checksum = rec.checksum ∧ r'.updated_at = rec.updated_at))
      s (sqlUpdate s rec) := by
  induction s with
  | nil => exact List.Forall₂.nil
  | cons a t ih =>
    refine List.Forall₂.cons ?_ ih
    by_cases ha : a.file_path = rec.file_path
    · rw [updateRow_of_eq ha]
      exact ⟨rfl, rfl, rfl, fun h => absurd ha h,
        fun _ => ⟨rfl, rfl, rfl, rfl⟩⟩
    · rw [updateRow_of_ne ha]
      exact ⟨rfl, rfl, rfl, fun _ => rfl, fun h => absurd h ha⟩

/-- Witness for C9 at a two-row store: one matching and one other path. -/
theorem c9_witness :
    List.Forall₂ (fun r r' =>
      r'.id = r.id ∧ r'.file_path = r.file_path ∧
      r'.created_at = r.created_at ∧
      (r.file_path ≠ "a" → r' = r) ∧
      (r.file_path = "a" →
        r'.size = 9 ∧ r'.modified_time = 8 ∧
        r'.checksum = "n" ∧ r'.updated_at = "u2"))
      [{ id := some 1, file_path := "a", size := 1, modified_time := 0,
         checksum := "c", created_at := "t", updated_at := "t" },
       { id := some 2, file_path := "b", size := 2, modified_time := 3,
         checksum := "d", created_at := "t", updated_at := "t" }]
      (sqlUpdate
        [{ id := some 1, file_path := "a", size := 1, modified_time := 0,
           checksum := "c", created_at := "t", updated_at := "t" },
         { id := some 2, file_path := "b", size := 2, modified_time := 3,
           checksum := "d", created_at := "t", updated_at := "t" }]
        { id := none, file_path := "a", size := 9, modified_time := 8,
          checksum := "n", created_at := "u2", updated_at := "u2" }) :=
  c9_update_frame
    [{ id := some 1, file_path := "a", size := 1, modified_time := 0,
       checksum := "c", created_at := "t", updated_at := "t" },
     { id := some 2, file_path := "b", size := 2, modified_time := 3,
       checksum := "d", created_at := "t", updated_at := "t" }]
    { id := none, file_path := "a", size := 9, modified_time := 8,
      checksum := "n", created_at := "u2", updated_at := "u2" }

/-- Claim C10: the scan applies no ignore rules, so any scanned path —
including dot-prefixed ones — receives a record after a successful sync;
the watcher's default options make it drop events on dot-prefixed paths,
while overriding `ignored` makes such events delivered. -/
theorem c10_hidden_files_scanned_but_unwatched
    (root : String) (tree : List FsEntry) (disk : Disk) (S0 : Store)
    (now : String) (paths : List String) (p : String)
    (hscan : scanEntries root tree = Except.ok paths)
    (hnp : paths.Nodup)
    (hs0 : (S0.map (fun x => x.file_path)).Nodup)
    (hread : ∀ q ∈ paths, (createFileRecord disk now q).isSome)
    (hp : p ∈ paths) :
    (∃ s1 ops1,
      performInitialSync root tree disk (some S0) now =
        ((some s1, ops1), none) ∧ ∃ r ∈ s1, r.file_path = p) ∧
    (defaultIgnored p = true →
      eventDelivered { ignored := none } p = false) ∧
    eventDelivered { ignored := some (fun _ => false) } p = true := by
  refine ⟨?_, ?_, rfl⟩
  · obtain ⟨s1, ops1, heq, _, hfresh, _⟩ :=
      initialSync_post hscan hnp hs0 hread
    obtain ⟨r, hr, hrp, _⟩ := hfresh p hp
    exact ⟨s1, ops1, heq, r, hr, hrp⟩
  · intro hd
    simp [eventDelivered, startWatchingOptions, hd]

/-- Witness for C10: the hidden file `/r/.hidden` is scanned and recorded,
yet its events are dropped under the default options and delivered when
`ignored` is overridden. -/
theorem c10_witness :
    (scanEntries "/r" [FsEntry.file ".hidden"] = Except.ok ["/r/.hidden"] ∧
     (["/r/.hidden"] : List String).Nodup ∧
     ((([] : Store)).map (fun x => x.file_path)).Nodup ∧
     (∀ q ∈ ["/r/.hidden"],
       (createFileRecord
         [("/r/.hidden", { size := 5, mtimeMs := 2000, checksum? := some "x" })]
         "t" q).isSome) ∧
     "/r/.hidden" ∈ ["/r/.hidden"] ∧ defaultIgnored "/r/.hidden" = true) ∧
    ((∃ s1 ops1,
      performInitialSync "/r" [FsEntry.file ".hidden"]
        [("/r/.hidden", { size := 5, mtimeMs := 2000, checksum? := some "x" })]
        (some []) "t" = ((some s1, ops1), none) ∧
      ∃ r ∈ s1, r.file_path = "/r/.hidden") ∧
     (defaultIgnored "/r/.hidden" = true →
       eventDelivered { ignored := none } "/r/.hidden" = false) ∧
     eventDelivered { ignored := some (fun _ => false) } "/r/.hidden" =
       true) :=
  ⟨⟨by simp [scanEntries], by decide, by decide, by decide, by decide,
    by decide⟩,
   c10_hidden_files_scanned_but_unwatched "/r" [FsEntry.file ".hidden"]
     [("/r/.hidden", { size := 5, mtimeMs := 2000, checksum? := some "x" })]
     [] "t" ["/r/.hidden"] "/r/.hidden" (by simp [scanEntries]) (by decide)
     (by decide) (by decide) (by decide)⟩

end Fsdb
